import Mathlib

set_option maxRecDepth 20000

/-!
Verification of the ahk-decompiler core against its specification.

Memory blobs and decoded text are modelled as `List Nat` (byte values,
respectively Unicode code points).  Python functions from
`src/core/extractor.py`, `src/core/memory.py` and `src/core/resources.py`
are embedded as executable Lean definitions; wall-clock time in the unpack
detector is modelled as natural-number seconds with polls taking zero time.
-/

/-- Code points of an ASCII Lean string, used to write byte blobs legibly. -/
def strBytes (s : String) : List Nat :=
  s.data.map Char.toNat

/-- ASCII lower-casing of one byte, as `re.IGNORECASE` folds bytes. -/
def lowerByte (b : Nat) : Nat :=
  if 65 ≤ b ∧ b ≤ 90 then b + 32 else b

/-- Membership of a byte in the regex class `\s` (ASCII). -/
def isWSb (b : Nat) : Bool :=
  b = 32 ∨ b = 9 ∨ b = 10 ∨ b = 13 ∨ b = 11 ∨ b = 12

/-- Characters stripped by Python `str.strip()` (Unicode whitespace). -/
def pyIsSpace (c : Nat) : Bool :=
  c = 32 ∨ c = 9 ∨ c = 10 ∨ c = 11 ∨ c = 12 ∨ c = 13 ∨
  (28 ≤ c ∧ c ≤ 31) ∨ c = 133 ∨ c = 160 ∨ c = 5760 ∨
  (8192 ≤ c ∧ c ≤ 8202) ∨ c = 8232 ∨ c = 8233 ∨ c = 8239 ∨ c = 8287 ∨ c = 12288

/-- Python `str.strip()`: drop leading and trailing whitespace. -/
def stripStr (l : List Nat) : List Nat :=
  ((l.dropWhile pyIsSpace).reverse.dropWhile pyIsSpace).reverse

/-- First index at or after the head of `l` where `pat` occurs, scanning a
suffix; the returned index is relative to `l`. -/
def findSubGo (pat : List Nat) : List Nat → Nat → Option Nat
  | [], i => if pat = [] then some i else none
  | b :: rest, i =>
    if pat.isPrefixOf (b :: rest) then some i else findSubGo pat rest (i + 1)

/-- Python `bytes.find(pat, start)`, with `None` for `-1`. -/
def findSubFrom (pat : List Nat) (l : List Nat) (start : Nat) : Option Nat :=
  (findSubGo pat (l.drop start) 0).map (· + start)

/-- Python `pat in l` (substring containment on bytes or text). -/
def containsSub (pat l : List Nat) : Bool :=
  (findSubGo pat l 0).isSome

/-- Case-insensitive substring containment, as `pat.lower() in l.lower()`. -/
def containsSubCI (pat l : List Nat) : Bool :=
  containsSub (pat.map lowerByte) (l.map lowerByte)

/-- Helper for `rfindByteBefore`: track the last index where `b` was seen. -/
def rfbGo (b : Nat) : List Nat → Nat → Option Nat → Option Nat
  | [], _, acc => acc
  | c :: rest, i, acc =>
    rfbGo b rest (i + 1) (if c = b then some i else acc)

/-- Python `bytes.rfind(b, 0, stop)`: last index `< stop` holding byte `b`,
with `None` for `-1`. -/
def rfindByteBefore (b : Nat) (l : List Nat) (stop : Nat) : Option Nat :=
  rfbGo b (l.take stop) 0 none

/-- Fuel-bounded UTF-8 decoding step; the fuel is an upper bound on the
number of bytes left, so it never runs out on the top-level call. -/
def decodeUtf8Go : Nat → List Nat → List Nat
  | _, [] => []
  | 0, _ => []
  | fuel + 1, b :: rest =>
    if b < 128 then b :: decodeUtf8Go fuel rest
    else if 194 ≤ b ∧ b ≤ 223 then
      match rest with
      | [] => []
      | c :: rest2 =>
        if 128 ≤ c ∧ c ≤ 191 then
          ((b - 192) * 64 + (c - 128)) :: decodeUtf8Go fuel rest2
        else decodeUtf8Go fuel rest
    else if 224 ≤ b ∧ b ≤ 239 then
      match rest with
      | [] => []
      | c :: rest2 =>
        if (128 ≤ c ∧ c ≤ 191) ∧
            (b = 224 → 160 ≤ c) ∧ (b = 237 → c ≤ 159) then
          match rest2 with
          | [] => []
          | d :: rest3 =>
            if 128 ≤ d ∧ d ≤ 191 then
              ((b - 224) * 4096 + (c - 128) * 64 + (d - 128)) :: decodeUtf8Go fuel rest3
            else decodeUtf8Go fuel rest2
        else decodeUtf8Go fuel rest
    else if 240 ≤ b ∧ b ≤ 244 then
      match rest with
      | [] => []
      | c :: rest2 =>
        if (128 ≤ c ∧ c ≤ 191) ∧
            (b = 240 → 144 ≤ c) ∧ (b = 244 → c ≤ 143) then
          match rest2 with
          | [] => []
          | d :: rest3 =>
            if 128 ≤ d ∧ d ≤ 191 then
              match rest3 with
              | [] => []
              | e :: rest4 =>
                if 128 ≤ e ∧ e ≤ 191 then
                  ((b - 240) * 262144 + (c - 128) * 4096 + (d - 128) * 64 + (e - 128))
                    :: decodeUtf8Go fuel rest4
                else decodeUtf8Go fuel rest3
            else decodeUtf8Go fuel rest2
        else decodeUtf8Go fuel rest
    else decodeUtf8Go fuel rest

/-- Python `bytes.decode('utf-8', 'ignore')`: decode UTF-8, skipping bytes
that do not begin a valid sequence.  Returns code points. -/
def decodeUtf8Ignore (l : List Nat) : List Nat :=
  decodeUtf8Go l.length l

/-- Modelled from the spec: `COMPILER_SIGNATURE` lives in the missing
`utils/constants.py`; section 8 scenario A shows the primary marker as the
ASCII tag `COMPILER`. -/
def COMPILER_SIGNATURE : List Nat := strBytes ("COMPILER")

/-- Modelled from the spec: `SCRIPT_END_PATTERN` lives in the missing
`utils/constants.py`; section 8 scenario A ends the script body at the
double null byte sequence. -/
def SCRIPT_END_PATTERN : List Nat := [0, 0]

/-- Modelled from the spec: `SCRIPT_MINIMUM_HEURISTIC` lives in the missing
`utils/constants.py`; section 4.4 names it as the hotkey double-colon
token. -/
def SCRIPT_MINIMUM_HEURISTIC : List Nat := strBytes ("::")

/-- One simple-token pattern for byte-regex search: a case-sensitive byte, a
case-insensitive byte, or the class `[,\s]`. -/
inductive Tok where
  | lit (b : Nat)
  | litCI (b : Nat)
  | sep
deriving DecidableEq

/-- Does one token accept one byte. -/
def tokAccepts : Tok → Nat → Bool
  | .lit c, b => b = c
  | .litCI c, b => lowerByte b = lowerByte c
  | .sep, b => b = 44 ∨ isWSb b

/-- Match a token list against the front of a byte list, returning the match
length. -/
def tryMatch : List Tok → List Nat → Option Nat
  | [], _ => some 0
  | _ :: _, [] => none
  | t :: ts, b :: bs =>
    if tokAccepts t b then (tryMatch ts bs).map (· + 1) else none

/-- Fuel-bounded scanning step of `re.finditer`; the fuel bounds the number
of bytes left, so it never runs out on the top-level call. -/
def finditerGo (pat : List Tok) : Nat → List Nat → Nat → List Nat
  | _, [], _ => []
  | 0, _, _ => []
  | fuel + 1, b :: rest, i =>
    match tryMatch pat (b :: rest) with
    | some n => i :: finditerGo pat fuel (rest.drop (n - 1)) (i + n)
    | none => finditerGo pat fuel rest (i + 1)

/-- `re.finditer` over a byte blob for a fixed token pattern: start
positions of non-overlapping matches, scanning left to right. -/
def finditer (pat : List Tok) (blob : List Nat) : List Nat :=
  finditerGo pat blob.length blob 0

/-- A case-sensitive literal pattern from bytes. -/
def litPat (l : List Nat) : List Tok := l.map Tok.lit

/-- A case-insensitive literal pattern from bytes. -/
def ciPat (l : List Nat) : List Tok := l.map Tok.litCI

/-- A case-insensitive literal followed by the class `[,\s]`. -/
def ciSepPat (l : List Nat) : List Tok := l.map Tok.litCI ++ [Tok.sep]

/-- The primary-marker extraction loop of `extract_scripts`
(src/core/extractor.py lines 63-74, also Method 1 of
`_extract_subprocess_scripts`, lines 110-121): for each occurrence of
`COMPILER_SIGNATURE`, the candidate runs from the start of the marker's
line to the first `SCRIPT_END_PATTERN` after the marker, is decoded as
UTF-8 ignoring errors, stripped, and kept when it contains
`SCRIPT_MINIMUM_HEURISTIC`. -/
def markerExtract (blob : List Nat) : List (List Nat) :=
  (finditer (litPat COMPILER_SIGNATURE) blob).filterMap (fun ms =>
    let start := match rfindByteBefore 10 blob ms with
      | some i => i + 1
      | none => 0
    match findSubFrom SCRIPT_END_PATTERN blob (ms + COMPILER_SIGNATURE.length) with
    | none => none
    | some e =>
      let data := stripStr (decodeUtf8Ignore ((blob.drop start).take (e - start)))
      if containsSub SCRIPT_MINIMUM_HEURISTIC data then some data else none)

/-- The concrete scenario-A memory blob: surrounding bytes, the marker on
its own line, a hotkey line, then the end-of-script pattern. -/
def c1blob : List Nat :=
  strBytes ("xy\nCOMPILER\nKey1::MsgBox, hi\n") ++ [0, 0] ++ strBytes ("zw")

/-- The modelled memory constants of `src/core/memory.py`. `MEM_COMMIT` is
the standard `win32con` value. -/
def MEM_COMMIT : Nat := 4096

/-- Modelled from the spec: `PAGE_READABLE` lives in the missing
`utils/constants.py`; section 3 lists the readable protections
(ReadOnly, ReadWrite, ExecuteRead, ExecuteReadWrite), giving the standard
mask 0x02 | 0x04 | 0x20 | 0x40. -/
def PAGE_READABLE : Nat := 2 ||| 4 ||| 32 ||| 64

/-- `is_readable_region` of src/core/memory.py lines 80-91. -/
def is_readable_region (state prot : Nat) : Bool :=
  state = MEM_COMMIT ∧ prot &&& PAGE_READABLE ≠ 0

/-- A memory region as seen by the unpack detector: the state and
protection words of the OS descriptor plus the bytes a read returns. -/
structure WRegion where
  state : Nat
  prot : Nat
  blob : List Nat
deriving DecidableEq

/-- The `unpack_signatures` list of `wait_for_unpack`
(src/core/memory.py lines 120-128); the primary marker is first. -/
def unpack_signatures : List (List Nat) :=
  [COMPILER_SIGNATURE, strBytes ("AutoHotkey"), strBytes ("SendInput"),
   strBytes ("WinActivate"), strBytes ("#NoEnv"), strBytes ("#SingleInstance"),
   strBytes ("::")]

/-- Index of the first signature of `unpack_signatures` contained in a
blob, mirroring the inner `for signature in unpack_signatures` loop. -/
def findFirstSig (blob : List Nat) : Option Nat :=
  go unpack_signatures 0 blob
where
  go : List (List Nat) → Nat → List Nat → Option Nat
    | [], _, _ => none
    | s :: rest, i, b => if containsSub s b then some i else go rest (i + 1) b

/-- Outcome of scanning all regions once inside `wait_for_unpack`'s poll. -/
inductive ScanRes where
  | primaryHit
  | secondaryHit
  | cont (found : Bool)
deriving DecidableEq

/-- One pass of the `for base, size, state, prot in enum_memory(hproc)`
loop of `wait_for_unpack` (src/core/memory.py lines 147-172) at elapsed
time `t`: skip unreadable or empty regions; return immediately on the
primary signature; on any signature mark it found; after each scanned
region return once a signature was found and at least 5 seconds have
elapsed since the detector started. -/
def scanRegions : List WRegion → Bool → Nat → ScanRes
  | [], found, _ => .cont found
  | r :: rs, found, t =>
    if ¬ is_readable_region r.state r.prot then scanRegions rs found t
    else if r.blob = [] then scanRegions rs found t
    else
      match findFirstSig r.blob with
      | some 0 => .primaryHit
      | some _ => if 5 ≤ t then .secondaryHit else scanRegions rs true t
      | none => if found ∧ 5 ≤ t then .secondaryHit else scanRegions rs found t

/-- How `wait_for_unpack` returned. -/
inductive WfuPath where
  | primaryConf
  | secondaryConf
  | timeoutExit
deriving DecidableEq

/-- Observable outcome of `wait_for_unpack`: the returned boolean, the
elapsed seconds at return, the number of polls executed, and the return
path taken. -/
structure WfuOut where
  result : Bool
  retTime : Nat
  polls : Nat
  path : WfuPath
deriving DecidableEq

/-- The `while time.time() - t0 < timeout` loop of `wait_for_unpack`
(src/core/memory.py lines 133-179), with time in whole seconds, polls
instantaneous, poll `k` happening at elapsed time `k * interval`, and the
memory snapshot at time `t` given by `mem t`.  After the loop the function
still returns `True` when any signature was ever seen.  The fuel bounds
the iteration count and never runs out when `1 ≤ interval` and the fuel is
at least `timeout`. -/
def wfuGo (mem : Nat → List WRegion) (timeout interval : Nat) :
    Nat → Nat → Bool → WfuOut
  | 0, k, found => ⟨found, k * interval, k, .timeoutExit⟩
  | fuel + 1, k, found =>
    if k * interval < timeout then
      match scanRegions (mem (k * interval)) found (k * interval) with
      | .primaryHit => ⟨true, k * interval, k + 1, .primaryConf⟩
      | .secondaryHit => ⟨true, k * interval, k + 1, .secondaryConf⟩
      | .cont found2 => wfuGo mem timeout interval fuel (k + 1) found2
    else ⟨found, k * interval, k, .timeoutExit⟩

/-- `wait_for_unpack` (src/core/memory.py lines 94-187) over a memory
snapshot function, a timeout and a poll interval, both in seconds. -/
def wait_for_unpack (mem : Nat → List WRegion) (timeout interval : Nat) : WfuOut :=
  wfuGo mem timeout interval timeout 0 false

/-- Is the primary compiler marker present in some readable, non-empty
region of a snapshot. -/
def hasPrimary (regs : List WRegion) : Bool :=
  regs.any (fun r =>
    is_readable_region r.state r.prot ∧ r.blob ≠ [] ∧
    containsSub COMPILER_SIGNATURE r.blob)

lemma findFirstSig_go_ge : ∀ (sigs : List (List Nat)) (i : Nat) (b : List Nat) (j : Nat),
    findFirstSig.go sigs i b = some j → i ≤ j := by
  intro sigs
  induction sigs with
  | nil => intro i b j h; simp [findFirstSig.go] at h
  | cons s rest ih =>
    intro i b j h
    simp only [findFirstSig.go] at h
    by_cases hc : containsSub s b
    · simp [hc] at h; omega
    · simp [hc] at h
      have := ih (i + 1) b j h
      omega

lemma findFirstSig_zero_of {b : List Nat}
    (h : containsSub COMPILER_SIGNATURE b = true) : findFirstSig b = some 0 := by
  simp [findFirstSig, unpack_signatures, findFirstSig.go, h]

lemma contains_of_findFirstSig_zero {b : List Nat}
    (h : findFirstSig b = some 0) : containsSub COMPILER_SIGNATURE b = true := by
  by_contra hc
  simp only [findFirstSig, unpack_signatures, findFirstSig.go, hc, if_false] at h
  repeat' split at h
  all_goals simp_all

lemma scanRegions_primary_of_hasPrimary :
    ∀ (regs : List WRegion) (found : Bool) (t : Nat), t < 5 →
    hasPrimary regs = true → scanRegions regs found t = .primaryHit := by
  intro regs
  induction regs with
  | nil => intro found t _ h; simp [hasPrimary] at h
  | cons r rs ih =>
    intro found t ht h
    simp only [hasPrimary, List.any_cons, Bool.or_eq_true] at h
    simp only [scanRegions]
    by_cases hr : is_readable_region r.state r.prot
    · by_cases hb : r.blob = []
      · simp only [hb, hr]
        simp only [hb] at h
        rcases h with h | h
        · simp at h
        · simp only [hr, not_true, if_false, if_true]
          exact ih found t ht (by simpa [hasPrimary] using h)
      · by_cases hc : containsSub COMPILER_SIGNATURE r.blob
        · have h0 : findFirstSig r.blob = some 0 := findFirstSig_zero_of hc
          simp [hr, hb, h0]
        · have hrs : hasPrimary rs = true := by
            rcases h with h | h
            · exfalso; simp [hr, hb, hc] at h
            · simpa [hasPrimary] using h
          have hnot5 : ¬ 5 ≤ t := by omega
          rcases hsig : findFirstSig r.blob with _ | j
          · simp only [hr, hb, hsig, not_true, if_false, if_true, not_false_iff]
            simp only [hnot5, and_false, if_false]
            exact ih found t ht hrs
          · rcases j with _ | j
            · exact absurd (contains_of_findFirstSig_zero hsig) hc
            · simp only [hr, hb, hsig, not_true, if_false, if_true, not_false_iff]
              simp only [hnot5, if_false]
              exact ih true t ht hrs
    · simp only [hr, not_false_iff, if_true]
      have hrs : hasPrimary rs = true := by
        rcases h with h | h
        · exfalso; simp [hr] at h
        · simpa [hasPrimary] using h
      exact ih found t ht hrs

lemma scanRegions_secondary_time :
    ∀ (regs : List WRegion) (found : Bool) (t : Nat),
    scanRegions regs found t = .secondaryHit → 5 ≤ t := by
  intro regs
  induction regs with
  | nil => intro found t h; simp [scanRegions] at h
  | cons r rs ih =>
    intro found t h
    simp only [scanRegions] at h
    by_cases hr : is_readable_region r.state r.prot
    · by_cases hb : r.blob = []
      · simp [hr, hb] at h; exact ih _ t h
      · rcases hsig : findFirstSig r.blob with _ | j
        · simp only [hr, hb, hsig, not_true, if_false] at h
          by_cases h5 : found ∧ 5 ≤ t
          · exact h5.2
          · simp [h5] at h; exact ih _ t h
        · rcases j with _ | j
          · simp [hr, hb, hsig] at h
          · simp only [hr, hb, hsig, not_true, if_false] at h
            by_cases h5 : 5 ≤ t
            · exact h5
            · simp [h5] at h; exact ih _ t h
    · simp [hr] at h; exact ih _ t h

lemma wfuGo_time_bounds (mem : Nat → List WRegion) (timeout interval : Nat) :
    ∀ (fuel k : Nat) (found : Bool),
    timeout ≤ k * interval + fuel * interval →
    ((wfuGo mem timeout interval fuel k found).path = .secondaryConf →
      5 ≤ (wfuGo mem timeout interval fuel k found).retTime) ∧
    ((wfuGo mem timeout interval fuel k found).path = .timeoutExit →
      timeout ≤ (wfuGo mem timeout interval fuel k found).retTime) := by
  intro fuel
  induction fuel with
  | zero =>
    intro k found hinv
    simp only [wfuGo]
    constructor
    · intro h; simp at h
    · intro _; simpa using hinv
  | succ f ih =>
    intro k found hinv
    simp only [wfuGo]
    by_cases hcond : k * interval < timeout
    · simp only [hcond, if_true]
      rcases hscan : scanRegions (mem (k * interval)) found (k * interval) with _ | _ | found2
      · simp
      · simp only []
        constructor
        · intro _; exact scanRegions_secondary_time _ _ _ hscan
        · intro h; simp at h
      · exact ih (k + 1) found2 (by
          have : (k + 1) * interval + f * interval = k * interval + (f + 1) * interval := by ring
          omega)
    · simp only [hcond, if_false]
      constructor
      · intro h; simp at h
      · intro _; omega

/-- C2 (amended): if the primary compiler marker is present in a readable
non-empty region at the moment `wait_for_unpack` starts and the timeout is
positive — so that at least one poll runs — then the detector returns the
confirmed result on its first poll, at elapsed time 0, for every poll
interval.  (With timeout 0 the polling loop never executes; see the
counterexample.) -/
theorem C2_thm (mem : Nat → List WRegion) (timeout interval : Nat)
    (ht : 1 ≤ timeout) (hp : hasPrimary (mem 0) = true) :
    wait_for_unpack mem timeout interval = ⟨true, 0, 1, .primaryConf⟩ := by
  rcases timeout with _ | t
  · omega
  · simp only [wait_for_unpack, wfuGo, Nat.zero_mul]
    have hcond : 0 < t + 1 := Nat.succ_pos t
    have hscan : scanRegions (mem 0) false 0 = .primaryHit :=
      scanRegions_primary_of_hasPrimary (mem 0) false 0 (by omega) hp
    simp [hcond, hscan]

/-- A concrete snapshot holding the primary marker in a committed,
read-write region from time 0 onward. -/
def memC2 : Nat → List WRegion :=
  fun _ => [⟨4096, 4, strBytes ("junk COMPILER junk")⟩]

/-- C2 counterexample: the claim quantifies over every timeout including
zero, but with timeout 0 the `while time.time() - t0 < timeout` loop of
`wait_for_unpack` never runs a poll, and the function returns the
not-unpacked result even though the primary marker is present at start. -/
theorem C2_counterexample :
    hasPrimary (memC2 0) = true ∧
    wait_for_unpack memC2 0 1 = ⟨false, 0, 0, .timeoutExit⟩ := by
  constructor
  · decide
  · decide

/-- Witness for C2: a run with timeout 1 and the marker present confirms on
the first poll. -/
theorem C2_witness :
    wait_for_unpack memC2 1 1 = ⟨true, 0, 1, .primaryConf⟩ :=
  C2_thm memC2 1 1 (by decide) (by decide)

/-- C3 (amended): when `wait_for_unpack` does not confirm through the
primary marker, any secondary-signature confirmation inside the polling
loop happens only once at least 5 seconds have elapsed since the detector
started (not since the first secondary observation), the post-timeout path
returns only once the timeout has elapsed, and hence the detector never
reports the unpacked result before `min 5 timeout` seconds. -/
theorem C3_thm (mem : Nat → List WRegion) (timeout interval : Nat)
    (hi : 1 ≤ interval) :
    ((wait_for_unpack mem timeout interval).path = .secondaryConf →
      5 ≤ (wait_for_unpack mem timeout interval).retTime) ∧
    ((wait_for_unpack mem timeout interval).path = .timeoutExit →
      timeout ≤ (wait_for_unpack mem timeout interval).retTime) ∧
    ((wait_for_unpack mem timeout interval).path ≠ .primaryConf →
      min 5 timeout ≤ (wait_for_unpack mem timeout interval).retTime) := by
  have hinv : timeout ≤ 0 * interval + timeout * interval := by
    have : timeout * 1 ≤ timeout * interval := Nat.mul_le_mul_left timeout hi
    omega
  simp only [wait_for_unpack]
  have hb := wfuGo_time_bounds mem timeout interval timeout 0 false hinv
  refine ⟨hb.1, hb.2, ?_⟩
  intro hnp
  rcases hpath : (wfuGo mem timeout interval timeout 0 false).path with _ | _ | _
  · exact absurd hpath hnp
  · have := hb.1 hpath
    omega
  · have := hb.2 hpath
    omega

/-- A snapshot where a secondary signature (and nothing else) becomes
visible at time 7 and stays; memory is empty before that. -/
def memC3 : Nat → List WRegion :=
  fun t => if 7 ≤ t then [⟨4096, 4, strBytes ("AutoHotkey!")⟩] else []

/-- C3 counterexample: with the secondary signature first observable at
t=7s (memory empty at t=6s and before), a 1-second poll interval and a
30-second timeout, the detector confirms at t=7s — measured against the
detector's start, not the first observation — which is before 7+5=12s, so
the claim's "not before t+5s" clause is false. -/
theorem C3_counterexample :
    memC3 6 = [] ∧
    wait_for_unpack memC3 30 1 = ⟨true, 7, 8, .secondaryConf⟩ ∧
    ¬ (7 + 5 ≤ 7) := by
  refine ⟨by decide, by decide, by decide⟩

/-- Witness for C3: at a concrete secondary-only run the bound of the
amended claim evaluates and holds. -/
theorem C3_witness :
    min 5 30 ≤ (wait_for_unpack memC3 30 1).retTime :=
  (C3_thm memC3 30 1 (by decide)).2.2 (by decide)

/-- C1 counterexample: on the scenario-A blob the primary-path extractor
produces one script whose persisted text is not `Key1::MsgBox, hi` — the
extraction starts at the beginning of the line containing the marker, so
the marker line itself is part of the persisted text. -/
theorem C1_counterexample :
    markerExtract c1blob ≠ [strBytes ("Key1::MsgBox, hi")] := by decide

/-- C1 (amended): on the scenario-A blob the primary-path extractor yields
exactly one script, whose content is the stripped text from the start of
the marker's line to the end pattern — `COMPILER\nKey1::MsgBox, hi`,
which contains the required hotkey token. -/
theorem C1_thm :
    markerExtract c1blob = [strBytes ("COMPILER\nKey1::MsgBox, hi")] ∧
    containsSub SCRIPT_MINIMUM_HEURISTIC (strBytes ("COMPILER\nKey1::MsgBox, hi")) = true := by
  refine ⟨by decide, by decide⟩

/-- The `ahk_patterns` list of `_extract_subprocess_scripts`
(src/core/extractor.py lines 126-140), matched case-insensitively. -/
def ahk_patterns : List (List Tok) :=
  [ciSepPat (strBytes ("SendInput")), ciSepPat (strBytes ("WinActivate")),
   ciSepPat (strBytes ("Sleep")), ciSepPat (strBytes ("ControlClick")),
   ciSepPat (strBytes ("WinWait")), ciSepPat (strBytes ("IfWinExist")),
   ciSepPat (strBytes ("Loop")), ciSepPat (strBytes ("Hotkey")),
   ciPat (strBytes ("#NoEnv")), ciPat (strBytes ("#SingleInstance")),
   ciPat (strBytes ("#Include")), ciPat (strBytes ("::")),
   ciPat (strBytes ("#IfWin"))]

/-- The Method-2 counting loop of `_extract_subprocess_scripts`
(src/core/extractor.py lines 143-151): accumulate the number of pattern
matches and set the window start — 100 bytes before the first match of the
current pattern, clamped to 0 — only while it is still 0. -/
def m2ScanGo (blob : List Nat) : List (List Tok) → Nat → Nat → Nat × Nat
  | [], pm, ps => (pm, ps)
  | p :: rest, pm, ps =>
    match finditer p blob with
    | [] => m2ScanGo blob rest pm ps
    | m :: ms =>
      m2ScanGo blob rest (pm + (m :: ms).length)
        (if ps = 0 then Nat.max 0 (m - 100) else ps)

/-- The `(pattern_matches, potential_start)` pair computed over all of
`ahk_patterns`. -/
def m2Scan (blob : List Nat) : Nat × Nat :=
  m2ScanGo blob ahk_patterns 0 0

/-- Does Method 2 attempt extraction: `if pattern_matches >= 2`
(src/core/extractor.py line 154). -/
def method2Triggers (blob : List Nat) : Bool :=
  decide (2 ≤ (m2Scan blob).1)

/-- Total number of pattern-match occurrences, summed over the fixed list. -/
def totalMatches (blob : List Nat) : Nat :=
  (ahk_patterns.map (fun p => (finditer p blob).length)).sum

/-- Stated after the spec's words, for comparison with the code: the number
of distinct keyword/directive tokens of the fixed list found anywhere in
the blob. -/
def method2DistinctTokens (blob : List Nat) : Nat :=
  (ahk_patterns.filter (fun p => !(finditer p blob).isEmpty)).length

/-- First match position of the earliest pattern, in the fixed list order,
that matches anywhere in the blob. -/
def firstListedMatch (blob : List Nat) : Option Nat :=
  (ahk_patterns.filterMap (fun p => (finditer p blob).head?)).head?

/-- Stated after the spec's words, for comparison with the code: the
position of the first match in the blob, i.e. the smallest match position
over all patterns. -/
def specFirstMatchPos (blob : List Nat) : Option Nat :=
  (ahk_patterns.filterMap (fun p => (finditer p blob).head?)).min?

lemma m2ScanGo_pm (blob : List Nat) :
    ∀ (pats : List (List Tok)) (pm ps : Nat),
    (m2ScanGo blob pats pm ps).1 =
      pm + (pats.map (fun p => (finditer p blob).length)).sum := by
  intro pats
  induction pats with
  | nil => intro pm ps; simp [m2ScanGo]
  | cons p rest ih =>
    intro pm ps
    simp only [m2ScanGo, List.map_cons, List.sum_cons]
    rcases hf : finditer p blob with _ | ⟨m, ms⟩
    · simp [ih]
    · simp only [ih]
      simp [List.length_cons]
      omega

lemma m2ScanGo_ps_stable (blob : List Nat) :
    ∀ (pats : List (List Tok)) (pm ps : Nat), ps ≠ 0 →
    (m2ScanGo blob pats pm ps).2 = ps := by
  intro pats
  induction pats with
  | nil => intro pm ps _; simp [m2ScanGo]
  | cons p rest ih =>
    intro pm ps hps
    simp only [m2ScanGo]
    rcases hf : finditer p blob with _ | ⟨m, ms⟩
    · exact ih pm ps hps
    · simp only [hps, if_false]
      exact ih _ ps hps

lemma m2ScanGo_window (blob : List Nat) :
    ∀ (pats : List (List Tok)) (pm p : Nat),
    (pats.filterMap (fun q => (finditer q blob).head?)).head? = some p →
    100 < p →
    (m2ScanGo blob pats pm 0).2 = p - 100 := by
  intro pats
  induction pats with
  | nil => intro pm p h _; simp at h
  | cons q rest ih =>
    intro pm p h hp
    simp only [List.filterMap_cons] at h
    simp only [m2ScanGo]
    rcases hf : finditer q blob with _ | ⟨m, ms⟩
    · simp only [hf, Option.none_orElse] at h
      simp only [List.head?_nil] at h
      exact ih pm p h hp
    · simp only [hf] at h
      simp only [List.head?_cons] at h
      have hm : m = p := by
        simp at h
        exact h
      subst hm
      have hmx : Nat.max 0 (m - 100) = m - 100 := Nat.zero_max _
      simp only [if_true, hmx]
      exact m2ScanGo_ps_stable blob rest _ (m - 100) (by omega)

/-- C4 (amended): Method 2 attempts extraction iff the total number of
pattern-match occurrences summed over the fixed list is at least 2 —
distinctness of tokens is not required — and the extraction window starts
`p - 100` where `p` is the first match position of the earliest pattern in
the fixed list order having any match, whenever `p > 100` (not the first
match position in the blob). -/
theorem C4_thm :
    (∀ blob : List Nat, method2Triggers blob = true ↔ 2 ≤ totalMatches blob) ∧
    (∀ (blob : List Nat) (p : Nat), firstListedMatch blob = some p → 100 < p →
      (m2Scan blob).2 = p - 100) := by
  constructor
  · intro blob
    simp [method2Triggers, m2Scan, totalMatches, m2ScanGo_pm]
  · intro blob p h hp
    exact m2ScanGo_window blob ahk_patterns 0 p h hp

/-- A blob holding two occurrences of the single token `Sleep,` and no
other pattern. -/
def c4blob1 : List Nat := strBytes ("Sleep, a Sleep, b")

/-- A blob whose earliest match by position (`Sleep,` at 0) belongs to a
later-listed pattern than `SendInput,` at position 120. -/
def c4blob2 : List Nat :=
  strBytes ("Sleep, ") ++ List.replicate 113 97 ++ strBytes ("SendInput, z")

/-- C4 counterexample: a blob with two occurrences of only the single
token `Sleep,` does trigger Method 2 (the code sums occurrences, it does
not count distinct tokens), and on a blob whose first match by position is
at 0 while the first listed matching pattern matches at 120, the window
starts at 20, not at the claimed `max(0, 0 - 100) = 0`. -/
theorem C4_counterexample :
    method2DistinctTokens c4blob1 = 1 ∧ method2Triggers c4blob1 = true ∧
    specFirstMatchPos c4blob2 = some 0 ∧ (m2Scan c4blob2).2 = 20 := by
  refine ⟨by decide, by decide, by decide, by decide⟩

/-- Witness for C4: on the concrete blob the first listed matching pattern
matches at 120 > 100 and the window start evaluates to 20. -/
theorem C4_witness : (m2Scan c4blob2).2 = 120 - 100 :=
  C4_thm.2 c4blob2 120 (by decide) (by decide)

/-- A PE section header as parsed by `_parse_pe_headers`
(src/core/resources.py lines 82-95). -/
structure PESection where
  name : List Nat
  virtual_address : Nat
  virtual_size : Nat
  raw_offset : Nat
  raw_size : Nat
deriving DecidableEq

/-- `_rva_to_file_offset` (src/core/resources.py lines 257-267): find the
first section whose virtual range contains the RVA and return
`raw_offset + (rva - virtual_address)`; `None` when no section contains
it. -/
def rvaToFileOffset : List PESection → Nat → Option Nat
  | [], _ => none
  | s :: rest, rva =>
    if s.virtual_address ≤ rva ∧ rva < s.virtual_address + s.virtual_size then
      some (s.raw_offset + (rva - s.virtual_address))
    else rvaToFileOffset rest rva

/-- C5: an RVA inside some section's virtual range translates to
`raw_offset + (rva - virtual_address)` of the first such section — in
particular an RVA equal to a section's virtual address maps to its raw
offset — and an RVA outside every section's range translates to `none`. -/
theorem C5_thm :
    (∀ (sections : List PESection) (rva : Nat),
      (∀ s ∈ sections,
        ¬ (s.virtual_address ≤ rva ∧ rva < s.virtual_address + s.virtual_size)) →
      rvaToFileOffset sections rva = none) ∧
    (∀ (pre : List PESection) (s : PESection) (post : List PESection) (rva : Nat),
      (∀ s' ∈ pre,
        ¬ (s'.virtual_address ≤ rva ∧ rva < s'.virtual_address + s'.virtual_size)) →
      s.virtual_address ≤ rva → rva < s.virtual_address + s.virtual_size →
      rvaToFileOffset (pre ++ s :: post) rva =
        some (s.raw_offset + (rva - s.virtual_address))) := by
  constructor
  · intro sections rva h
    induction sections with
    | nil => simp [rvaToFileOffset]
    | cons s rest ih =>
      have hs := h s (by simp)
      simp only [rvaToFileOffset, hs, if_false]
      exact ih (fun s' hs' => h s' (by simp [hs']))
  · intro pre s post rva hpre h1 h2
    induction pre with
    | nil => simp [rvaToFileOffset, h1, h2]
    | cons q qs ih =>
      have hq := hpre q (by simp)
      simp only [List.cons_append, rvaToFileOffset, hq, if_false]
      exact ih (fun s' hs' => hpre s' (by simp [hs']))

/-- Concrete sections for the C5 witness. -/
def c5sections : List PESection :=
  [⟨strBytes (".text"), 4096, 512, 1024, 512⟩,
   ⟨strBytes (".rsrc"), 8192, 256, 4096, 256⟩]

/-- Witness for C5: an RVA at the exact start of the second section maps
to its raw offset, and an RVA past every section's range maps to none. -/
theorem C5_witness :
    rvaToFileOffset c5sections 8192 = some 4096 ∧
    rvaToFileOffset c5sections 16384 = none := by
  constructor
  · have h := C5_thm.2 [⟨strBytes (".text"), 4096, 512, 1024, 512⟩]
      ⟨strBytes (".rsrc"), 8192, 256, 4096, 256⟩ [] 8192
      (by decide) (by decide) (by decide)
    simpa [c5sections] using h
  · exact C5_thm.1 c5sections 16384 (by decide)

/-- The per-resource loop of `extract_rcdata_resources`
(src/core/resources.py lines 129-134): translate each data RVA and slice
the file when the translated offset is truthy and in bounds. -/
def extract_rcdata_loop (fileData : List Nat) (sections : List PESection) :
    List (Nat × Nat) → List (List Nat)
  | [] => []
  | (rva, size) :: rest =>
    match rvaToFileOffset sections rva with
    | some off =>
      if off ≠ 0 ∧ off + size ≤ fileData.length then
        ((fileData.drop off).take size) :: extract_rcdata_loop fileData sections rest
      else extract_rcdata_loop fileData sections rest
    | none => extract_rcdata_loop fileData sections rest

/-- C10: a located resource whose data RVA translates to file offset 0 is
silently dropped — the Python truthiness test `if file_offset and ...`
treats the valid offset 0 exactly like a failed translation, so no bytes
are extracted for it. -/
theorem C10_thm (fileData : List Nat) (sections : List PESection)
    (rva size : Nat) (h : rvaToFileOffset sections rva = some 0) :
    extract_rcdata_loop fileData sections [(rva, size)] = [] := by
  simp [extract_rcdata_loop, h]

/-- A section starting at RVA 4096 whose raw data begins at file offset 0. -/
def c10sections : List PESection :=
  [⟨strBytes (".x"), 4096, 512, 0, 512⟩]

/-- Witness for C10: with a section whose raw offset is 0, the resource at
the section's first RVA translates successfully to offset 0 yet yields no
extracted bytes. -/
theorem C10_witness :
    extract_rcdata_loop (List.replicate 600 7) c10sections [(4096, 16)] = [] :=
  C10_thm (List.replicate 600 7) c10sections 4096 16 (by decide)

/-- Membership in the character class `[a-zA-Z_]`. -/
def isIdentStart (c : Nat) : Bool :=
  (65 ≤ c ∧ c ≤ 90) ∨ (97 ≤ c ∧ c ≤ 122) ∨ c = 95

/-- Membership in the character class `[a-zA-Z0-9_]`. -/
def isIdentChar (c : Nat) : Bool :=
  isIdentStart c ∨ (48 ≤ c ∧ c ≤ 57)

/-- Tail of the regex `\s*[,\(]`: whitespace then a comma or opening
parenthesis. -/
def wsThenSep : List Nat → Bool
  | [] => false
  | c :: rest => if c = 44 ∨ c = 40 then true else if isWSb c then wsThenSep rest else false

/-- `re.search` for a function-call indicator `Name\s*[,\(]`
(case-insensitive). -/
def fnCallSearch (lit : List Nat) : List Nat → Bool
  | [] => false
  | c :: rest =>
    ((tryMatch (ciPat lit) (c :: rest)).isSome &&
      wsThenSep ((c :: rest).drop lit.length)) ||
    fnCallSearch lit rest

/-- After an opening `::` and one non-colon character: scan the remaining
non-colon run and require an immediate `::` after it. -/
def hkSeek : List Nat → Bool
  | [] => false
  | c :: rest => if c = 58 then rest.head? = some 58 else hkSeek rest

/-- `[^:]+::` — at least one non-colon character then a double colon. -/
def hkAfter : List Nat → Bool
  | [] => false
  | c :: rest => c ≠ 58 && hkSeek rest

/-- `re.search` for the hotkey indicator `::[^:]+::`. -/
def hotkeySearch : List Nat → Bool
  | [] => false
  | c :: rest =>
    (c = 58 &&
      (match rest with
       | d :: rest2 => d = 58 && hkAfter rest2
       | [] => false)) ||
    hotkeySearch rest

/-- Tail of the assignment indicator: `\s*` then the literal `:=`. -/
def assignTailSep : List Nat → Bool
  | [] => false
  | c :: rest =>
    if isWSb c then assignTailSep rest else c = 58 && rest.head? = some 61

/-- `[a-zA-Z0-9_]*\s*:=` after the leading identifier character. -/
def assignIdentTail : List Nat → Bool
  | [] => false
  | c :: rest =>
    if isIdentChar c then assignIdentTail rest else assignTailSep (c :: rest)

/-- `\s*[a-zA-Z_][a-zA-Z0-9_]*\s*:=` anchored at one position. -/
def assignAt : List Nat → Bool
  | [] => false
  | c :: rest =>
    if isWSb c then assignAt rest
    else if isIdentStart c then assignIdentTail rest
    else false

/-- `re.search` in MULTILINE mode for the assignment indicator
`^\s*[a-zA-Z_][a-zA-Z0-9_]*\s*:=`: try every line start. -/
def assignSearchGo : Bool → List Nat → Bool
  | _, [] => false
  | st, c :: rest =>
    (st && assignAt (c :: rest)) || assignSearchGo (decide (c = 10)) rest

/-- Search the assignment indicator from the start of the text. -/
def assignSearch (l : List Nat) : Bool :=
  assignSearchGo true l

/-- One syntax-pattern indicator of `_is_likely_ahk_script`. -/
inductive AhkIndicator where
  | lit (s : List Nat)
  | fnCall (s : List Nat)
  | hotkey
  | assign
deriving DecidableEq

/-- Does one indicator regex match somewhere in the text
(`re.search` with IGNORECASE and MULTILINE). -/
def indicatorHit : AhkIndicator → List Nat → Bool
  | .lit s, t => containsSubCI s t
  | .fnCall s, t => fnCallSearch s t
  | .hotkey, t => hotkeySearch t
  | .assign, t => assignSearch t

/-- The `ahk_indicators` list of `_is_likely_ahk_script`
(src/core/resources.py lines 395-412), in source order. -/
def ahk_indicators : List AhkIndicator :=
  [.lit (strBytes ("#NoEnv")), .lit (strBytes ("#SingleInstance")),
   .lit (strBytes ("#Include")), .fnCall (strBytes ("SendInput")),
   .fnCall (strBytes ("WinActivate")), .fnCall (strBytes ("Sleep")),
   .fnCall (strBytes ("ControlClick")), .fnCall (strBytes ("WinWait")),
   .fnCall (strBytes ("IfWinExist")), .fnCall (strBytes ("Loop")),
   .fnCall (strBytes ("Hotkey")), .hotkey, .assign,
   .fnCall (strBytes ("Run")), .fnCall (strBytes ("MouseClick")),
   .fnCall (strBytes ("SetKeyDelay"))]

/-- Number of indicators that match the text (the `matches` counter of
src/core/resources.py lines 414-417). -/
def countIndicatorHits (t : List Nat) : Nat :=
  ahk_indicators.countP (fun p => indicatorHit p t)

/-- `_is_likely_ahk_script` (src/core/resources.py lines 381-420): reject
text shorter than 20 characters, then require at least 2 indicator
matches. -/
def is_likely_ahk_script (t : List Nat) : Bool :=
  if t.length < 20 then false else decide (2 ≤ countIndicatorHits t)

/-- A 23-character text matching only the single `Sleep` indicator. -/
def c7reject : List Nat := strBytes ("Sleep, 12345 abcdef xyz")

/-- A 21-character text matching the `#NoEnv` literal and the hotkey
pattern. -/
def c7accept : List Nat := strBytes ("#NoEnv and ::abc:: ok")

/-- C7: the script-likelihood test accepts a text iff its length is at
least 20 and at least 2 of the fixed syntax patterns match it; a
sufficiently long string matching only one pattern (a single `Sleep,`) is
rejected, and a string containing the hotkey double-colon pattern plus one
directive token is accepted. -/
theorem C7_thm :
    (∀ t : List Nat,
      is_likely_ahk_script t = true ↔ 20 ≤ t.length ∧ 2 ≤ countIndicatorHits t) ∧
    (20 ≤ c7reject.length ∧ countIndicatorHits c7reject = 1 ∧
      is_likely_ahk_script c7reject = false) ∧
    (countIndicatorHits c7accept = 2 ∧ is_likely_ahk_script c7accept = true) := by
  refine ⟨?_, ⟨by decide, by decide, by decide⟩, ⟨by decide, by decide⟩⟩
  intro t
  by_cases h : t.length < 20
  · simp only [is_likely_ahk_script, h, if_true]
    constructor
    · intro hf; exact absurd hf (by simp)
    · intro hc; omega
  · simp only [is_likely_ahk_script, h, if_false, decide_eq_true_eq]
    constructor
    · intro hc; exact ⟨by omega, hc⟩
    · intro hc; exact hc.2

/-- Byte at index `i` of a buffer, 0 past the end; all real accesses are
bounds-checked before the read, mirroring the Python guards. -/
def getByte (l : List Nat) (i : Nat) : Nat :=
  l.getD i 0

/-- `struct.unpack('<H', ...)` at offset `i`. -/
def readU16 (l : List Nat) (i : Nat) : Nat :=
  getByte l i + 256 * getByte l (i + 1)

/-- `struct.unpack('<I', ...)` at offset `i`. -/
def readU32 (l : List Nat) (i : Nat) : Nat :=
  getByte l i + 256 * getByte l (i + 1) + 65536 * getByte l (i + 2) +
    16777216 * getByte l (i + 3)

/-- `RT_RCDATA` (src/core/resources.py line 21). -/
def RT_RCDATA : Nat := 10

/-- The language-level entry loop of `_parse_language_directory`
(src/core/resources.py lines 235-250): each entry's rva field points
directly at a 16-byte data-entry record; out-of-bounds entries stop the
loop, out-of-bounds data entries are skipped. -/
def parseLangEntries (rsrc : List Nat) : Nat → Nat → List (Nat × Nat)
  | 0, _ => []
  | n + 1, off =>
    if off + 8 > rsrc.length then []
    else
      let erva := readU32 rsrc (off + 4)
      (if erva + 16 ≤ rsrc.length then
        [(readU32 rsrc erva, readU32 rsrc (erva + 4))]
      else []) ++ parseLangEntries rsrc n (off + 8)

/-- `_parse_language_directory` (src/core/resources.py lines 221-255). -/
def parse_language_directory (rsrc : List Nat) (dirOff : Nat) : List (Nat × Nat) :=
  if dirOff + 16 > rsrc.length then []
  else
    parseLangEntries rsrc (readU16 rsrc (dirOff + 12) + readU16 rsrc (dirOff + 14))
      (dirOff + 16)

/-- The name/ID-level entry loop of `_parse_sub_directory`
(src/core/resources.py lines 194-214): a high bit in the rva field points
at a language directory, otherwise the field points directly at a 16-byte
data-entry record. -/
def parseSubEntries (rsrc : List Nat) : Nat → Nat → List (Nat × Nat)
  | 0, _ => []
  | n + 1, off =>
    if off + 8 > rsrc.length then []
    else
      let erva := readU32 rsrc (off + 4)
      (if erva &&& 2147483648 ≠ 0 then
        parse_language_directory rsrc (erva &&& 2147483647)
      else if erva + 16 ≤ rsrc.length then
        [(readU32 rsrc erva, readU32 rsrc (erva + 4))]
      else []) ++ parseSubEntries rsrc n (off + 8)

/-- `_parse_sub_directory` (src/core/resources.py lines 180-219). -/
def parse_sub_directory (rsrc : List Nat) (dirOff : Nat) : List (Nat × Nat) :=
  if dirOff + 16 > rsrc.length then []
  else
    parseSubEntries rsrc (readU16 rsrc (dirOff + 12) + readU16 rsrc (dirOff + 14))
      (dirOff + 16)

/-- The root entry loop of `_parse_resource_directory`
(src/core/resources.py lines 157-173): only entries whose id equals
`RT_RCDATA` and whose rva field has the high bit set are descended. -/
def parseRootEntries (rsrc : List Nat) : Nat → Nat → List (Nat × Nat)
  | 0, _ => []
  | n + 1, off =>
    if off + 8 > rsrc.length then []
    else
      let rid := readU32 rsrc off
      let erva := readU32 rsrc (off + 4)
      (if rid = RT_RCDATA then
        (if erva &&& 2147483648 ≠ 0 then
          parse_sub_directory rsrc (erva &&& 2147483647)
        else [])
      else []) ++ parseRootEntries rsrc n (off + 8)

/-- `_parse_resource_directory` (src/core/resources.py lines 142-178). -/
def parse_resource_directory (rsrc : List Nat) : List (Nat × Nat) :=
  if rsrc.length < 16 then []
  else parseRootEntries rsrc (readU16 rsrc 12 + readU16 rsrc 14) 16

/-- A well-formed three-level resource tree: one RCDATA type entry, one
name/ID entry, one language entry, whose data entry records RVA 4096 and
size 5. -/
def c6tree : List Nat :=
  [0,0,0,0,0,0,0,0,0,0,0,0, 0,0, 1,0,
   10,0,0,0, 24,0,0,128,
   0,0,0,0,0,0,0,0,0,0,0,0, 0,0, 1,0,
   0,0,0,0, 48,0,0,128,
   0,0,0,0,0,0,0,0,0,0,0,0, 0,0, 1,0,
   0,0,0,0, 72,0,0,0,
   0,16,0,0, 5,0,0,0, 0,0,0,0,0,0,0,0]

/-- C6: the resource tree walk is a total function of the buffer (every
multi-byte read is bounds-checked), and on the well-formed three-level
tree with one type, one name/ID and one language it returns exactly one
(rva, size) pair, while on the same tree truncated mid-subdirectory (30 of
88 bytes) it returns zero pairs. -/
theorem C6_thm :
    parse_resource_directory c6tree = [(4096, 5)] ∧
    parse_resource_directory (c6tree.take 30) = [] := by
  refine ⟨by decide, by decide⟩

/-- Python `split(sep)` for a one-character separator over a symbol list. -/
def splitOnByte (q : Nat) : List Nat → List (List Nat)
  | [] => [[]]
  | c :: rest =>
    if c = q then [] :: splitOnByte q rest
    else
      match splitOnByte q rest with
      | l :: ls => (c :: l) :: ls
      | [] => [[c]]

/-- Is a stripped line kept by the Method-2 cleanup: non-empty and not
starting with a NUL character (src/core/extractor.py line 164). -/
def m2GoodLine (l : List Nat) : Bool :=
  !l.isEmpty && l.head? ≠ some 0

/-- The Method-2 cleanup loop after content has started: keep stripped
good lines, stop at the first bad one (the `elif clean_lines: break`). -/
def m2CollectAfter : List (List Nat) → List (List Nat)
  | [] => []
  | l :: rest =>
    if m2GoodLine (stripStr l) then stripStr l :: m2CollectAfter rest else []

/-- The `clean_lines` loop of `_extract_subprocess_scripts`
(src/core/extractor.py lines 159-167): skip bad lines until the first good
one, then collect until a bad line breaks the run. -/
def m2Collect : List (List Nat) → List (List Nat)
  | [] => []
  | l :: rest =>
    if m2GoodLine (stripStr l) then stripStr l :: m2CollectAfter rest
    else m2Collect rest

/-- The first 8 patterns with their `[,\s]` class suffix stripped, used by
the Method-2 validation (src/core/extractor.py lines 173-174); the `in`
test there is case-sensitive. -/
def m2ValidationTokens : List (List Nat) :=
  [strBytes ("SendInput"), strBytes ("WinActivate"), strBytes ("Sleep"),
   strBytes ("ControlClick"), strBytes ("WinWait"), strBytes ("IfWinExist"),
   strBytes ("Loop"), strBytes ("Hotkey")]

/-- `any(... in clean_script for pattern in ahk_patterns[:8])`. -/
def m2Validate (t : List Nat) : Bool :=
  m2ValidationTokens.any (fun k => containsSub k t)

/-- Method 2 of `_extract_subprocess_scripts`
(src/core/extractor.py lines 142-179): when at least 2 pattern matches are
counted, decode from the window start, clean the lines, and accept when at
least 3 lines survive and a main keyword appears verbatim. -/
def method2Candidate (blob : List Nat) : Option (List Nat) :=
  let scan := m2Scan blob
  if 2 ≤ scan.1 then
    let cl := m2Collect (splitOnByte 10 (decodeUtf8Ignore (blob.drop scan.2)))
    if 3 ≤ cl.length then
      let cs := List.intercalate [10] cl
      if m2Validate cs then some cs else none
    else none
  else none

/-- The high-signal keywords of the Method-3 string patterns
(src/core/extractor.py lines 183-186). -/
def m3Keywords : List (List Nat) :=
  [strBytes ("SendInput"), strBytes ("WinActivate"), strBytes ("Sleep")]

/-- Does a quote-free span contain one of the keywords
(case-insensitive). -/
def m3SegHasKw (seg : List Nat) : Bool :=
  m3Keywords.any (fun k => containsSubCI k seg)

/-- Matches of the regex `q[^q]*(?:kw)[^q]*q` over the quote-separated
spans: scan consecutive-quote spans left to right; a span containing a
keyword is a match and consumes its closing quote, otherwise the closing
quote starts the next span. -/
def m3FromSegs (q : Nat) : List (List Nat) → List (List Nat)
  | [] => []
  | [x] => if m3SegHasKw x then [q :: (x ++ [q])] else []
  | x :: y :: rest =>
    if m3SegHasKw x then (q :: (x ++ [q])) :: m3FromSegs q rest
    else m3FromSegs q (y :: rest)

/-- `re.finditer` of one Method-3 string pattern over the blob: the spans
lie strictly between consecutive quotes. -/
def m3Matches (q : Nat) (blob : List Nat) : List (List Nat) :=
  m3FromSegs q (((splitOnByte q blob).drop 1).dropLast)

/-- A quote character as stripped by `.strip('"\'')`. -/
def isQuoteChar (c : Nat) : Bool :=
  c = 34 ∨ c = 39

/-- Python `str.strip('"\'')`: drop quote characters from both ends. -/
def stripQuoteChars (l : List Nat) : List Nat :=
  ((l.dropWhile isQuoteChar).reverse.dropWhile isQuoteChar).reverse

/-- The Method-3 acceptance test (src/core/extractor.py lines 191-192):
the unquoted decoded content must exceed 50 characters and contain the
hotkey token. -/
def m3Accept (g : List Nat) : Option (List Nat) :=
  let content := stripQuoteChars (decodeUtf8Ignore g)
  if 50 < content.length && containsSub (strBytes ("::")) content then
    some content
  else none

/-- Method 3 of `_extract_subprocess_scripts`
(src/core/extractor.py lines 181-198): for each of the two quote styles,
emit the first accepted match (`break` ends that pattern's loop). -/
def method3Candidates (blob : List Nat) : List (List Nat) :=
  [34, 39].filterMap (fun q => ((m3Matches q blob).filterMap m3Accept).head?)

/-- The extraction method tag encoded in a subprocess filename suffix. -/
inductive SubMethod where
  | m1
  | m2raw
  | m3string
deriving DecidableEq

/-- All candidates one blob yields in `_extract_subprocess_scripts`, in
emission order: Method 1, then Method 2, then Method 3. -/
def subprocessCandidates (blob : List Nat) : List (SubMethod × List Nat) :=
  (markerExtract blob).map (fun c => (SubMethod.m1, c)) ++
  (match method2Candidate blob with
   | some c => [(SubMethod.m2raw, c)]
   | none => []) ++
  (method3Candidates blob).map (fun c => (SubMethod.m3string, c))

/-- Filename triples (pid, method, sequence): the sequence is
`current_scripts + scripts_found` at emission time, i.e. a single counter
shared by all three methods. -/
def numberFrom (pid : Nat) : Nat → List (SubMethod × List Nat) → List (Nat × SubMethod × Nat)
  | _, [] => []
  | cur, (m, _) :: rest => (pid, m, cur + 1) :: numberFrom pid (cur + 1) rest

/-- The filenames one blob produces given the process-wide count so far. -/
def extractSubFiles (pid : Nat) (blob : List Nat) (cur : Nat) :
    List (Nat × SubMethod × Nat) :=
  numberFrom pid cur (subprocessCandidates blob)

/-- The subprocess branch of `extract_scripts`
(src/core/extractor.py lines 39-53): fold over the readable blobs,
accumulating the script count. -/
def extractScriptsSub (pid : Nat) : List (List Nat) → Nat → List (Nat × SubMethod × Nat)
  | [], _ => []
  | blob :: rest, cur =>
    let files := extractSubFiles pid blob cur
    files ++ extractScriptsSub pid rest (cur + files.length)

/-- The retry logic of `process_single_pid`
(src/core/extractor.py lines 262-270): a second extraction pass runs only
when the first pass found zero scripts. -/
def processSubRunFiles (pid : Nat) (blobs1 blobs2 : List (List Nat)) :
    List (Nat × SubMethod × Nat) :=
  let f1 := extractScriptsSub pid blobs1 0
  if f1.length = 0 then f1 ++ extractScriptsSub pid blobs2 0 else f1

lemma numberFrom_length (pid : Nat) :
    ∀ (l : List (SubMethod × List Nat)) (cur : Nat),
    (numberFrom pid cur l).length = l.length := by
  intro l
  induction l with
  | nil => intro cur; simp [numberFrom]
  | cons x rest ih =>
    intro cur
    rcases x with ⟨m, c⟩
    simp [numberFrom, ih]

lemma numberFrom_seqs (pid : Nat) :
    ∀ (l : List (SubMethod × List Nat)) (cur : Nat),
    (numberFrom pid cur l).map (fun f => f.2.2) = List.range' (cur + 1) l.length := by
  intro l
  induction l with
  | nil => intro cur; simp [numberFrom]
  | cons x rest ih =>
    intro cur
    rcases x with ⟨m, c⟩
    simp only [numberFrom, List.map_cons, List.length_cons, ih, List.range'_succ]

lemma extractScriptsSub_seqs (pid : Nat) :
    ∀ (blobs : List (List Nat)) (cur : Nat),
    (extractScriptsSub pid blobs cur).map (fun f => f.2.2) =
      List.range' (cur + 1) (extractScriptsSub pid blobs cur).length := by
  intro blobs
  induction blobs with
  | nil => intro cur; simp [extractScriptsSub]
  | cons blob rest ih =>
    intro cur
    simp only [extractScriptsSub, extractSubFiles, List.map_append, List.length_append,
      numberFrom_seqs pid _ cur, numberFrom_length pid _ cur, ih]
    have happ := List.range'_append (cur + 1) (subprocessCandidates blob).length
      (extractScriptsSub pid rest (cur + (subprocessCandidates blob).length)).length 1
    simp only [Nat.one_mul, List.range'_one] at happ
    have h1 : cur + (subprocessCandidates blob).length + 1 =
        cur + 1 + (subprocessCandidates blob).length := by omega
    rw [h1, Nat.add_comm (subprocessCandidates blob).length
      (extractScriptsSub pid rest (cur + (subprocessCandidates blob).length)).length]
    exact happ

/-- C8 (amended): within one run for a process, the sequence numbers of
the subprocess extraction come from a single counter shared by the three
methods — consecutive integers 1, 2, ... across the whole pass in emission
order — so the (pid, method, sequence) filename triples are pairwise
distinct and no output file is overwritten; and the retry pass runs only
when the first pass produced zero files, in which case nothing can be
overwritten either. -/
theorem C8_thm (pid : Nat) (blobs1 blobs2 : List (List Nat)) :
    (processSubRunFiles pid blobs1 blobs2).map (fun f => f.2.2) =
      List.range' 1 (processSubRunFiles pid blobs1 blobs2).length ∧
    List.Pairwise (fun a b => a ≠ b) (processSubRunFiles pid blobs1 blobs2) ∧
    (extractScriptsSub pid blobs1 0 ≠ [] →
      processSubRunFiles pid blobs1 blobs2 = extractScriptsSub pid blobs1 0) := by
  have hseqs : (processSubRunFiles pid blobs1 blobs2).map (fun f => f.2.2) =
      List.range' 1 (processSubRunFiles pid blobs1 blobs2).length := by
    by_cases h : (extractScriptsSub pid blobs1 0).length = 0
    · simp only [processSubRunFiles, h, if_true]
      have hnil : extractScriptsSub pid blobs1 0 = [] := List.length_eq_zero.mp h
      simp only [hnil, List.nil_append]
      exact extractScriptsSub_seqs pid blobs2 0
    · simp only [processSubRunFiles, h, if_false]
      exact extractScriptsSub_seqs pid blobs1 0
  refine ⟨hseqs, ?_, ?_⟩
  · have hlt : List.Pairwise (· < ·)
        ((processSubRunFiles pid blobs1 blobs2).map (fun f => f.2.2)) := by
      rw [hseqs]
      exact List.pairwise_lt_range' 1 _ 1 (by omega)
    have := List.pairwise_map.mp hlt
    exact this.imp (fun hab heq => by rw [heq] at hab; exact lt_irrefl _ hab)
  · intro hne
    have h : ¬ (extractScriptsSub pid blobs1 0).length = 0 := by
      intro h0; exact hne (List.length_eq_zero.mp h0)
    simp [processSubRunFiles, h]

/-- A blob on which both Method 1 (marker) and Method 2 (keyword density)
produce a candidate. -/
def c8blob : List Nat :=
  strBytes ("xx\nCOMPILER\nKey1::MsgBox, hi\nSleep, 5\n") ++ [0, 0] ++ strBytes ("yy")

/-- C8 counterexample: on a blob where Method 1 and Method 2 both emit,
Method 2's first output carries sequence number 2 — the counter is shared
across the three methods, not per-method as the claim's "numbers its
outputs independently" requires (an independent numbering would give
Method 2's first output sequence 1). -/
theorem C8_counterexample :
    extractScriptsSub 7 [c8blob] 0 =
      [(7, SubMethod.m1, 1), (7, SubMethod.m2raw, 2)] ∧
    (7, SubMethod.m2raw, 1) ∉ extractScriptsSub 7 [c8blob] 0 := by
  refine ⟨by decide, by decide⟩

/-- Witness for C8: on a run whose first pass produced files, no retry
output is appended. -/
theorem C8_witness :
    processSubRunFiles 7 [c8blob] [] = extractScriptsSub 7 [c8blob] 0 :=
  (C8_thm 7 [c8blob] []).2.2 (by decide)

/-- One OS memory-region descriptor as yielded by `enum_memory`
(src/core/memory.py lines 15-33). -/
structure MRegion where
  base : Nat
  size : Nat
  state : Nat
  prot : Nat
deriving DecidableEq

/-- `enum_memory` over an abstract OS query function, unfolded with fuel:
query the region at `addr`, yield it, advance by its reported size, stop
when the query fails.  The fuel truncates a potentially infinite stream. -/
def enumMemory (q : Nat → Option MRegion) : Nat → Nat → List MRegion
  | 0, _ => []
  | fuel + 1, addr =>
    match q addr with
    | none => []
    | some r => r :: enumMemory q fuel (addr + r.size)

/-- An OS query model that always reports a region of size 0 at base 0. -/
def c9qZero : Nat → Option MRegion :=
  fun _ => some ⟨0, 0, 4096, 4⟩

/-- C9 counterexample: with an OS model that can report a region of size
0, the enumerator re-queries the same address forever — the bases of
successive yields are not strictly increasing (both are 0) and the
sequence does not terminate (every extra unit of fuel yields one more
region), refuting the claim for "every sequence of regions the OS model
can return, including regions whose reported size is 0". -/
theorem C9_counterexample :
    (enumMemory c9qZero 2 0).map MRegion.base = [0, 0] ∧
    ¬ List.Chain' (· < ·) ([0, 0] : List Nat) ∧
    (enumMemory c9qZero 3 0).length = 3 := by
  refine ⟨by decide, by simp, by decide⟩

/-- The OS query of a fixed contiguous partition of the address space:
regions of sizes `regs.map (·.1)` (with state and protection words) tile
the space from `t` upward; the query returns the region containing the
address, failing past the end. -/
def partQAux : Nat → List (Nat × Nat × Nat) → Nat → Option MRegion
  | _, [], _ => none
  | t, (s, st, pr) :: rest, a =>
    if a < t + s then some ⟨t, s, st, pr⟩ else partQAux (t + s) rest a

/-- The partition-backed OS query starting at address 0. -/
def partQ (regs : List (Nat × Nat × Nat)) : Nat → Option MRegion :=
  partQAux 0 regs

/-- The regions of a partition in address order, starting at `t`. -/
def partRegions : Nat → List (Nat × Nat × Nat) → List MRegion
  | _, [] => []
  | t, (s, st, pr) :: rest => ⟨t, s, st, pr⟩ :: partRegions (t + s) rest

lemma enumMemory_congr (q q2 : Nat → Option MRegion) :
    ∀ (fuel a : Nat), (∀ x, a ≤ x → q x = q2 x) →
    enumMemory q fuel a = enumMemory q2 fuel a := by
  intro fuel
  induction fuel with
  | zero => intro a _; simp [enumMemory]
  | succ f ih =>
    intro a h
    simp only [enumMemory, h a (le_refl a)]
    rcases hq : q2 a with _ | r
    · rfl
    · simp only []
      rw [ih (a + r.size) (fun x hx => h x (by omega))]

lemma enumMemory_part :
    ∀ (regs : List (Nat × Nat × Nat)) (t extra : Nat),
    (∀ r ∈ regs, 1 ≤ r.1) →
    enumMemory (partQAux t regs) (regs.length + extra) t = partRegions t regs := by
  intro regs
  induction regs with
  | nil =>
    intro t extra _
    rcases extra with _ | e
    · simp [enumMemory, partRegions]
    · simp [enumMemory, partQAux, partRegions]
  | cons r rest ih =>
    intro t extra hpos
    rcases r with ⟨s, st, pr⟩
    have hs : 1 ≤ s := hpos (s, st, pr) (by simp)
    simp only [List.length_cons, partRegions]
    have hfuel : rest.length + 1 + extra = (rest.length + extra) + 1 := by omega
    rw [hfuel]
    have hq : partQAux t ((s, st, pr) :: rest) t = some ⟨t, s, st, pr⟩ := by
      simp only [partQAux]
      rw [if_pos (by omega)]
    have hsize : (⟨t, s, st, pr⟩ : MRegion).size = s := rfl
    simp only [enumMemory, hq, hsize]
    have hcongr := enumMemory_congr (partQAux t ((s, st, pr) :: rest))
      (partQAux (t + s) rest) (rest.length + extra) (t + s)
      (fun x hx => by
        simp only [partQAux]
        rw [if_neg (by omega)])
    rw [hcongr, ih (t + s) extra (fun r hr => hpos r (by simp [hr]))]

lemma partRegions_bases_chain :
    ∀ (regs : List (Nat × Nat × Nat)) (t : Nat),
    (∀ r ∈ regs, 1 ≤ r.1) →
    List.Chain' (· < ·) ((partRegions t regs).map MRegion.base) := by
  intro regs
  induction regs with
  | nil => intro t _; simp [partRegions]
  | cons r rest ih =>
    intro t hpos
    rcases r with ⟨s, st, pr⟩
    have hs : 1 ≤ s := hpos (s, st, pr) (by simp)
    simp only [partRegions, List.map_cons]
    rw [List.chain'_cons']
    refine ⟨?_, ih (t + s) (fun r hr => hpos r (by simp [hr]))⟩
    intro y hy
    rcases rest with _ | ⟨⟨s2, st2, pr2⟩, rest2⟩
    · simp [partRegions] at hy
    · simp only [partRegions, List.map_cons, List.head?_cons, Option.mem_def,
        Option.some.injEq] at hy
      subst hy
      show t < t + s
      omega

/-- C9 (amended): over an OS model that resolves each queried address
against a fixed contiguous partition of the address space into regions of
positive reported size, one enumeration pass yields exactly the partition
regions in address order — so the bases of successive yields are strictly
increasing — and the pass is finite, ending exactly when the query fails:
any extra fuel yields nothing more.  (With size-0 regions the enumerator
does not terminate; see the counterexample.) -/
theorem C9_thm (regs : List (Nat × Nat × Nat)) (extra : Nat)
    (hpos : ∀ r ∈ regs, 1 ≤ r.1) :
    enumMemory (partQ regs) (regs.length + extra) 0 = partRegions 0 regs ∧
    List.Chain' (· < ·) ((partRegions 0 regs).map MRegion.base) := by
  exact ⟨enumMemory_part regs 0 extra hpos, partRegions_bases_chain regs 0 hpos⟩

/-- A concrete three-region partition for the C9 witness. -/
def c9regs : List (Nat × Nat × Nat) :=
  [(4096, 4096, 4), (8192, 4096, 2), (4096, 0, 0)]

/-- Witness for C9: on the concrete partition the enumeration equals the
partition regions even with extra fuel, and the bases strictly increase. -/
theorem C9_witness :
    enumMemory (partQ c9regs) (3 + 2) 0 = partRegions 0 c9regs ∧
    List.Chain' (· < ·) ((partRegions 0 c9regs).map MRegion.base) :=
  C9_thm c9regs 2 (by decide)
